import Mathlib

/-!
Shallow embedding of the DnD combat tracker's core logic (src/src/App.jsx):
the initiative ordering engine, the HP update rules, graveyard migration with
the auto-graveyard batch rule, and the tie (roll-off) assignment.

Modelling conventions:
* JavaScript numbers that can be `NaN` are modelled by `JsNum` (all values the
  app produces are integers, so the numeric case carries an `Int`); a `null`
  HP field (Player-category combatants) is `Option.none`.
* `Math.min` / `Math.max` propagate `NaN`, and `x <= 0` is false for `NaN`,
  exactly as in JS.
* `Date.now()` is passed in as an explicit `now : Int` parameter.
* `localeCompare` on names is modelled as Lean's code-point string order
  (it agrees with it on the ASCII names exercised by the program's tests).
* `Math.random()`-driven d20 rolls are modelled by an explicit stream
  `rolls : Nat → Nat` together with the index of the next roll to consume;
  the unbounded resampling loop of `rollTies` is given explicit fuel per pick.
-/

/-- A JavaScript number as used for HP values: either `NaN` or an integer. -/
inductive JsNum where
  | nan : JsNum
  | num : Int → JsNum
deriving Repr, DecidableEq

/-- Math.min on two numbers: `NaN` if either argument is `NaN`. -/
def jsMin : JsNum → JsNum → JsNum
  | JsNum.nan, _ => JsNum.nan
  | _, JsNum.nan => JsNum.nan
  | JsNum.num x, JsNum.num y => JsNum.num (min x y)

/-- Math.max on two numbers: `NaN` if either argument is `NaN`. -/
def jsMax : JsNum → JsNum → JsNum
  | JsNum.nan, _ => JsNum.nan
  | _, JsNum.nan => JsNum.nan
  | JsNum.num x, JsNum.num y => JsNum.num (max x y)

/-- App.jsx line 4: `const clamp = (n, min, max) => Math.max(min, Math.min(max, n));` -/
def clamp (n lo hi : JsNum) : JsNum := jsMax lo (jsMin hi n)

/-- Subtraction of an integer from a JS number; `NaN` propagates. -/
def jsSub : JsNum → Int → JsNum
  | JsNum.nan, _ => JsNum.nan
  | JsNum.num x, a => JsNum.num (x - a)

/-- Addition of an integer to a JS number; `NaN` propagates. -/
def jsAdd : JsNum → Int → JsNum
  | JsNum.nan, _ => JsNum.nan
  | JsNum.num x, a => JsNum.num (x + a)

/-- The JS comparison `v <= 0`: false when `v` is `NaN`. -/
def jsLe0 : JsNum → Bool
  | JsNum.nan => false
  | JsNum.num x => x ≤ 0

/-- Numeric coercion of a possibly-`null` field in arithmetic position:
JS coerces `null` to `0` (e.g. in `c.hp - Math.abs(amount)` and inside
`Math.min`/`Math.max`). -/
def coNum : Option JsNum → JsNum
  | none => JsNum.num 0
  | some v => v

/-- One participant of the encounter, mirroring the object literal built by
`addCombatant` (App.jsx lines 202–214).  `hp`/`maxHp` are `none` for
Player-category ("PC") combatants; `removedAt` is set on graveyard entries. -/
structure Combatant where
  id : String
  name : String
  team : String
  hp : Option JsNum
  maxHp : Option JsNum
  init : Int
  tie : Option Int
  hidden : Bool
  notes : String
  down : Bool
  createdAt : Int
  removedAt : Option Int
deriving Repr, DecidableEq

/-- The secondary sort key of `sortByInit`: `a.tie ?? -Infinity` (line 8),
an absent tiebreaker ranking below every set one. -/
def tieKey (c : Combatant) : WithBot Int :=
  match c.tie with
  | none => ⊥
  | some t => (t : WithBot Int)

/-- The three-level comparator of `sortByInit` (App.jsx lines 6–11), expressed
as the relation "comparator(a,b) ≤ 0" (a sorts before, or ties with, b):
initiative descending, then tie descending with absent as `-Infinity`, then
name ascending. -/
def initLe (a b : Combatant) : Prop :=
  if a.init ≠ b.init then b.init < a.init
  else if tieKey a ≠ tieKey b then tieKey b < tieKey a
  else a.name.data ≤ b.name.data

instance : DecidableRel initLe := fun a b => by
  unfold initLe; infer_instance

/-- App.jsx lines 5–12: `sortByInit`, a stable sort of the list by the
three-level comparator. -/
def sortByInit (l : List Combatant) : List Combatant :=
  l.insertionSort initLe

/-- App.jsx lines 13–16: `applyDamagePure`. -/
def applyDamagePure (c : Combatant) (amount : Int) : Combatant :=
  let newHp := clamp (jsSub (coNum c.hp) |amount|) (JsNum.num (-9999)) (coNum c.maxHp)
  { c with hp := some newHp, down := jsLe0 newHp }

/-- App.jsx lines 17–20: `applyHealPure`. -/
def applyHealPure (c : Combatant) (amount : Int) : Combatant :=
  let newHp := clamp (jsAdd (coNum c.hp) |amount|) (JsNum.num (-9999)) (coNum c.maxHp)
  { c with hp := some newHp, down := jsLe0 newHp }

/-- The per-combatant update inlined in `setExactHp` (App.jsx lines 341–342):
`hpVal = clamp(val, -9999, c.maxHp)`, `down = hpVal <= 0`. -/
def setExactPure (c : Combatant) (val : JsNum) : Combatant :=
  let hpVal := clamp val (JsNum.num (-9999)) (coNum c.maxHp)
  { c with hp := some hpVal, down := jsLe0 hpVal }

/-- The tracker state the claims are about: active roster, graveyard, active
turn pointer and the persisted `settings.autoGraveyard` flag.  (Round counter,
theme and show-hidden are display-only and not touched by the modelled
operations.) -/
structure TrackerState where
  combatants : List Combatant
  graveyard : List Combatant
  activeId : Option String
  autoGraveyard : Bool
deriving Repr, DecidableEq

/-- The fallback of `ensureActiveValid`: `vis[0]?.id || null` computed on the
non-hidden entries of `list` in stored order (an empty-string id is falsy in
JS and yields `null`). -/
def firstVisibleId (l : List Combatant) : Option String :=
  match (l.filter fun c => !c.hidden).head? with
  | some c => if c.id = "" then none else some c.id
  | none => none

/-- App.jsx lines 184–187: `ensureActiveValid` — keep `activeId` if it still
names a visible entry of `list`, otherwise fall back to the first visible
entry (`vis[0]?.id || null`). -/
def ensureActiveValid (activeId : Option String) (l : List Combatant) : Option String :=
  if (l.filter fun c => !c.hidden).any fun c => activeId = some c.id then activeId
  else firstVisibleId l

/-- The damage mapping step of `applyDamage` (App.jsx lines 317–321): update
only the combatant with the given id, skipping PCs and non-numeric HP. -/
def damageMap (id : String) (amount : Int) (l : List Combatant) : List Combatant :=
  l.map fun c =>
    if c.id ≠ id then c
    else if c.team = "PC" ∨ c.hp = none then c
    else applyDamagePure c amount

/-- The heal mapping step of `applyHeal` (App.jsx lines 328–332). -/
def healMap (id : String) (amount : Int) (l : List Combatant) : List Combatant :=
  l.map fun c =>
    if c.id ≠ id then c
    else if c.team = "PC" ∨ c.hp = none then c
    else applyHealPure c amount

/-- The set-exact mapping step of `setExactHp` (App.jsx lines 338–343). -/
def setExactMap (id : String) (val : JsNum) (l : List Combatant) : List Combatant :=
  l.map fun c =>
    if c.id ≠ id then c
    else if c.team = "PC" ∨ c.hp = none then c
    else setExactPure c val

/-- The auto-graveyard scan predicate (App.jsx lines 302 and 309):
`c.team !== "PC" && typeof c.hp === "number" && c.hp <= 0`. -/
def deadPred (c : Combatant) : Bool :=
  c.team ≠ "PC" && c.hp.isSome && jsLe0 (coNum c.hp)

/-- App.jsx lines 300–313: `autoGrave` — given the freshly mapped roster
`next`, if the setting is on, move every non-PC HP-tracked combatant with
`hp <= 0` to the head of the graveyard in a batch (each stamped with
`removedAt`), and revalidate the active pointer against the remainder. -/
def autoGrave (now : Int) (s : TrackerState) (next : List Combatant) : TrackerState :=
  if !s.autoGraveyard then { s with combatants := next }
  else if (next.filter deadPred).isEmpty then { s with combatants := next }
  else
    { s with
        combatants := next.filter fun c => !deadPred c
        graveyard := ((next.filter deadPred).map fun c => { c with removedAt := some now })
          ++ s.graveyard
        activeId := ensureActiveValid s.activeId (next.filter fun c => !deadPred c) }

/-- App.jsx lines 315–325: `applyDamage` — per-target damage mapping followed
by the auto-graveyard scan. -/
def applyDamage (id : String) (amount : Int) (now : Int) (s : TrackerState) : TrackerState :=
  autoGrave now s (damageMap id amount s.combatants)

/-- App.jsx lines 327–333: `applyHeal` — per-target heal mapping only; unlike
`applyDamage` and `setExactHp` it does not invoke `autoGrave`. -/
def applyHeal (id : String) (amount : Int) (s : TrackerState) : TrackerState :=
  { s with combatants := healMap id amount s.combatants }

/-- App.jsx lines 335–347: `setExactHp` — `val = Number(value)` is the `JsNum`
argument (`JsNum.nan` when the raw string does not parse as a number);
per-target clamp-and-set followed by the auto-graveyard scan. -/
def setExactHp (id : String) (val : JsNum) (now : Int) (s : TrackerState) : TrackerState :=
  autoGrave now s (setExactMap id val s.combatants)

/-- App.jsx lines 238–260: `moveToGraveyard` — if the id is found, remove it
from the roster, prepend a `removedAt`-stamped snapshot to the graveyard and
revalidate the active pointer; otherwise leave the state untouched. -/
def moveToGraveyard (id : String) (now : Int) (s : TrackerState) : TrackerState :=
  match s.combatants.find? fun c => c.id = id with
  | none => s
  | some t =>
    { s with
        combatants := s.combatants.filter fun c => c.id ≠ id
        graveyard := { t with removedAt := some now } :: s.graveyard
        activeId := ensureActiveValid s.activeId (s.combatants.filter fun c => c.id ≠ id) }

/-- App.jsx lines 278–297: `restoreFromGraveyard` — the graveyard is filtered
either way; when the id is found the entry is re-inserted into the roster
(re-sorted) and the active pointer revalidated. -/
def restoreFromGraveyard (id : String) (s : TrackerState) : TrackerState :=
  match s.graveyard.find? fun c => c.id = id with
  | none => { s with graveyard := s.graveyard.filter fun c => c.id ≠ id }
  | some t =>
    { s with
        combatants := sortByInit (t :: s.combatants)
        graveyard := s.graveyard.filter fun c => c.id ≠ id
        activeId := ensureActiveValid s.activeId (sortByInit (t :: s.combatants)) }

/-- App.jsx lines 271–276: `deleteForeverConfirmed` — drop the id from the
graveyard. -/
def deleteForever (id : String) (s : TrackerState) : TrackerState :=
  { s with graveyard := s.graveyard.filter fun c => c.id ≠ id }

/-- App.jsx lines 198–228: the state transition of `addCombatant` — append the
new combatant; if there was no active pointer, point it at the first visible
entry of the sorted new roster (`first?.id ?? id`). -/
def addCombatant (c : Combatant) (s : TrackerState) : TrackerState :=
  { s with
      combatants := s.combatants ++ [c]
      activeId :=
        match s.activeId with
        | some a => some a
        | none =>
          some ((((sortByInit ((s.combatants ++ [c]).filter fun x => !x.hidden)).head?).map
            Combatant.id).getD c.id) }

/-! ### Ordering engine (C1) -/

/-- The combined lexicographic sort key: initiative descending, then tie
descending (absent below all), then name ascending. -/
def sortKey (c : Combatant) : Lex ((Int)ᵒᵈ × Lex ((WithBot Int)ᵒᵈ × List Char)) :=
  toLex (OrderDual.toDual c.init, toLex (OrderDual.toDual (tieKey c), c.name.data))

lemma initLe_iff_key (a b : Combatant) : initLe a b ↔ sortKey a ≤ sortKey b := by
  unfold initLe sortKey
  rw [Prod.Lex.le_iff, Prod.Lex.le_iff]
  simp only [OrderDual.toDual_lt_toDual, OrderDual.toDual_le_toDual, OrderDual.toDual_inj]
  by_cases h1 : a.init = b.init
  · by_cases h2 : tieKey a = tieKey b
    · simp [h1, h2]
    · simp [h1, h2, Ne.symm h2]
  · simp [h1, Ne.symm h1]

instance : IsTotal Combatant initLe :=
  ⟨fun a b => by
    rcases le_total (sortKey a) (sortKey b) with h | h
    · exact Or.inl ((initLe_iff_key a b).mpr h)
    · exact Or.inr ((initLe_iff_key b a).mpr h)⟩

instance : IsTrans Combatant initLe :=
  ⟨fun a b c hab hbc =>
    (initLe_iff_key a c).mpr
      (le_trans ((initLe_iff_key a b).mp hab) ((initLe_iff_key b c).mp hbc))⟩

/-- The spec's reading of the three-level comparator, spelled out as a
lexicographic description: `a` may stand (weakly) before `b` iff `a` has
strictly higher initiative, or the initiatives agree and `a` has the strictly
higher tie key (an absent tie below every set one), or both keys agree and
`a`'s name is not after `b`'s. -/
def rankedBefore (a b : Combatant) : Prop :=
  b.init < a.init ∨
    (a.init = b.init ∧
      (tieKey b < tieKey a ∨ (tieKey a = tieKey b ∧ a.name.data ≤ b.name.data)))

lemma initLe_iff_rankedBefore (a b : Combatant) : initLe a b ↔ rankedBefore a b := by
  unfold initLe rankedBefore
  by_cases h1 : a.init = b.init
  · by_cases h2 : tieKey a = tieKey b
    · simp [h1, h2, lt_self_iff_false]
    · simp [h1, h2, lt_self_iff_false]
  · simp [h1]

/-- The claim's concrete example: (init=15, name="Bex"). -/
def exBex : Combatant :=
  { id := "bex", name := "Bex", team := "PC", hp := none, maxHp := none, init := 15,
    tie := none, hidden := false, notes := "", down := false, createdAt := 0, removedAt := none }

/-- The claim's concrete example: (init=15, name="Ana"). -/
def exAna : Combatant := { exBex with id := "ana", name := "Ana", init := 15 }

/-- The claim's concrete example: (init=10, name="Alu"). -/
def exAlu : Combatant := { exBex with id := "alu", name := "Alu", init := 10 }

/-- C1: `sortByInit` returns a permutation of its input, ordered by the
three-level comparator — initiative descending, then tie descending with an
absent tie below every set one, then name ascending (locale-aware comparison
modelled as code-point order) — and the concrete combatants
(init=15,"Bex"), (init=15,"Ana"), (init=10,"Alu") sort to [Ana, Bex, Alu]. -/
theorem sortByInit_ordering :
    (∀ l : List Combatant,
      (sortByInit l).Perm l ∧ (sortByInit l).Pairwise rankedBefore) ∧
    (sortByInit [exBex, exAna, exAlu]).map Combatant.name = ["Ana", "Bex", "Alu"] := by
  refine ⟨fun l => ⟨List.perm_insertionSort initLe l, ?_⟩, by decide⟩
  exact (List.sorted_insertionSort initLe l).imp
    fun hab => (initLe_iff_rankedBefore _ _).mp hab

/-! ### HP update rules (C2) -/

/-- C2: for a non-Player combatant with numeric hp `h` and numeric maxHp `m`,
damage subtracts `|amount|`, heal adds `|amount|`, set-exact assigns `v`, all
clamped into `[-9999, m]` by `clamp(n,lo,hi) = max(lo, min(hi,n))`, and each
operation sets `down` to whether the new hp is ≤ 0. -/
theorem hpUpdateRules (c : Combatant) (amount v h m : Int)
    (_hteam : c.team ≠ "PC")
    (hhp : c.hp = some (JsNum.num h)) (hmax : c.maxHp = some (JsNum.num m)) :
    ((applyDamagePure c amount).hp = some (JsNum.num (max (-9999) (min m (h - |amount|)))) ∧
     (applyDamagePure c amount).down = decide (max (-9999) (min m (h - |amount|)) ≤ 0)) ∧
    ((applyHealPure c amount).hp = some (JsNum.num (max (-9999) (min m (h + |amount|)))) ∧
     (applyHealPure c amount).down = decide (max (-9999) (min m (h + |amount|)) ≤ 0)) ∧
    ((setExactPure c (JsNum.num v)).hp = some (JsNum.num (max (-9999) (min m v))) ∧
     (setExactPure c (JsNum.num v)).down = decide (max (-9999) (min m v) ≤ 0)) := by
  simp [applyDamagePure, applyHealPure, setExactPure, clamp, jsMin, jsMax, jsSub, jsAdd,
    jsLe0, coNum, hhp, hmax]

/-- A concrete non-Player combatant (hp 10 / maxHp 20) for witnesses. -/
def exEnemy : Combatant :=
  { id := "en1", name := "Bandit", team := "Enemy", hp := some (JsNum.num 10),
    maxHp := some (JsNum.num 20), init := 14, tie := none, hidden := false, notes := "",
    down := false, createdAt := 0, removedAt := none }

/-- Witness for C2: the rules instantiated at hp 10 / maxHp 20, damage 7,
set-exact 5, matching the program's own self-test values. -/
theorem hpUpdateRules_witness :
    (applyDamagePure exEnemy 7).hp = some (JsNum.num 3) ∧
    (applyDamagePure exEnemy 7).down = false ∧
    (applyHealPure exEnemy 50).hp = some (JsNum.num 20) ∧
    (setExactPure exEnemy (JsNum.num (-20000))).hp = some (JsNum.num (-9999)) ∧
    (setExactPure exEnemy (JsNum.num (-20000))).down = true := by
  have h1 := hpUpdateRules exEnemy 7 (-20000) 10 20 (by decide) rfl rfl
  have h2 := hpUpdateRules exEnemy 50 (-20000) 10 20 (by decide) rfl rfl
  refine ⟨?_, ?_, ?_, ?_, ?_⟩
  · rw [h1.1.1]; decide
  · rw [h1.1.2]; decide
  · rw [h2.2.1.1]; decide
  · rw [h1.2.2.1]; decide
  · rw [h1.2.2.2]; decide

/-! ### Auto-graveyard after heal? (C3) -/

/-- A non-Player combatant already at negative hp, used to probe the
auto-graveyard trigger. -/
def exZombie : Combatant :=
  { id := "z", name := "Zed", team := "Enemy", hp := some (JsNum.num (-5)),
    maxHp := some (JsNum.num 10), init := 9, tie := none, hidden := false, notes := "",
    down := true, createdAt := 0, removedAt := none }

/-- A one-combatant state with auto-graveyard enabled and `exZombie` at −5 hp. -/
def exHealState : TrackerState :=
  { combatants := [exZombie], graveyard := [], activeId := some "z", autoGraveyard := true }

/-- C3 counterexample: with the auto-graveyard setting enabled, a heal of 0 on
a non-Player HP-tracked combatant at hp = −5 leaves it in the active roster at
hp = −5 and the graveyard empty — heal does not trigger the auto-graveyard
scan, contrary to the claim. -/
theorem heal_autograve_counterexample :
    (applyHeal "z" 0 exHealState).combatants.map Combatant.id = ["z"] ∧
    (applyHeal "z" 0 exHealState).combatants.map Combatant.hp = [some (JsNum.num (-5))] ∧
    (applyHeal "z" 0 exHealState).graveyard = [] ∧
    exHealState.autoGraveyard = true := by decide

/-- C3 (amended): the auto-graveyard batch scan is evaluated after damage and
set-exact, but not after heal — `applyHeal` never changes roster membership,
the graveyard, or the active pointer, even when it leaves a combatant at
hp ≤ 0 with the setting enabled. -/
theorem heal_autograve_amended :
    ∀ (id : String) (amount : Int) (s : TrackerState),
      (applyHeal id amount s).combatants.map Combatant.id = s.combatants.map Combatant.id ∧
      (applyHeal id amount s).graveyard = s.graveyard ∧
      (applyHeal id amount s).activeId = s.activeId := by
  intro id amount s
  refine ⟨?_, rfl, rfl⟩
  show (s.combatants.map _).map Combatant.id = _
  rw [List.map_map]
  refine List.map_congr_left fun c _ => ?_
  show (if c.id ≠ id then c else if c.team = "PC" ∨ c.hp = none then c
    else applyHealPure c amount).id = c.id
  split_ifs <;> rfl

/-! ### Active-pointer reassignment (C4) -/

/-- Three visible combatants in stored order A(init 5), B(init 3), C(init 10);
A holds the active turn. -/
def exMvA : Combatant :=
  { id := "a", name := "A", team := "Enemy", hp := some (JsNum.num 5),
    maxHp := some (JsNum.num 5), init := 5, tie := none, hidden := false, notes := "",
    down := false, createdAt := 0, removedAt := none }

/-- Stored after A, with the lowest initiative. -/
def exMvB : Combatant := { exMvA with id := "b", name := "B", init := 3 }

/-- Stored last, with the highest initiative. -/
def exMvC : Combatant := { exMvA with id := "c", name := "C", init := 10 }

/-- The roster [A, B, C] in stored order with A active. -/
def exMvState : TrackerState :=
  { combatants := [exMvA, exMvB, exMvC], graveyard := [], activeId := some "a",
    autoGraveyard := false }

/-- C4 counterexample: moving the active combatant A to the graveyard
reassigns the pointer to B — the first remaining entry in stored order — even
though C is ranked first by the initiative ordering among the remaining
visible roster, so the pointer does not go to the initiative-ranked first. -/
theorem activeReassign_counterexample :
    (moveToGraveyard "a" 0 exMvState).activeId = some "b" ∧
    (((sortByInit (moveToGraveyard "a" 0 exMvState).combatants).filter
        fun c => !c.hidden).head?.map Combatant.id) = some "c" ∧
    some "b" ≠ some ("c" : String) := by decide

/-- Every member of the remaining roster after removing `id` has a different
id, so `ensureActiveValid` cannot keep `some id` and must take its fallback. -/
lemma ensureActiveValid_removed (id : String) (l : List Combatant)
    (h : ∀ c ∈ l, c.id ≠ id) :
    ensureActiveValid (some id) l = firstVisibleId l := by
  unfold ensureActiveValid
  have hany : ((l.filter fun c => !c.hidden).any fun c => some id = some c.id) = false := by
    rw [List.any_eq_false]
    intro c hc
    have hc' := List.mem_of_mem_filter hc
    simp only [decide_eq_true_eq]
    intro he
    exact h c hc' (by injection he with he'; exact he'.symm)
  rw [hany]
  simp

/-- C4 (amended): when the combatant holding the active turn is removed — by
manual move to the graveyard, or swept by the auto-graveyard rule — the active
pointer is reassigned to the first *non-hidden entry of the remaining roster
in its stored order* (`vis[0]` of the unsorted remainder; none if no visible
entry remains), not to the first of the initiative-sorted visible roster. -/
theorem activeReassign_amended :
    ∀ (s : TrackerState) (id : String) (now : Int),
      (s.activeId = some id →
        id ∈ s.combatants.map Combatant.id →
        (moveToGraveyard id now s).activeId =
          firstVisibleId (s.combatants.filter fun c => c.id ≠ id)) ∧
      (∀ next : List Combatant,
        s.autoGraveyard = true →
        s.activeId = some id →
        (next.map Combatant.id).Nodup →
        id ∈ (next.filter deadPred).map Combatant.id →
        (autoGrave now s next).activeId =
          firstVisibleId (next.filter fun c => !deadPred c)) := by
  intro s id now
  constructor
  · intro hact hmem
    obtain ⟨cid, hcmem, hcid⟩ := List.mem_map.mp hmem
    have hfind : (s.combatants.find? fun c => c.id = id).isSome := by
      rw [List.find?_isSome]
      exact ⟨cid, hcmem, by simp [hcid]⟩
    obtain ⟨t, ht⟩ := Option.isSome_iff_exists.mp hfind
    unfold moveToGraveyard
    rw [ht, hact]
    show ensureActiveValid (some id) _ = _
    exact ensureActiveValid_removed id _ fun c hc => by
      have := List.of_mem_filter hc
      simpa using this
  · intro next hauto hact hnd hmem
    obtain ⟨t, htmem, htid⟩ := List.mem_map.mp hmem
    have htdead : deadPred t := List.of_mem_filter htmem
    have htnext : t ∈ next := List.mem_of_mem_filter htmem
    unfold autoGrave
    rw [hauto]
    have hne : (next.filter deadPred).isEmpty = false := by
      rw [List.isEmpty_eq_false_iff_exists_mem]
      exact ⟨t, htmem⟩
    rw [hne, hact]
    simp only [Bool.not_true, Bool.false_eq_true, if_false]
    refine ensureActiveValid_removed id _ fun c hc hcid => ?_
    have hcnext : c ∈ next := List.mem_of_mem_filter hc
    have hclive := (List.mem_filter.mp hc).2
    have : c = t := List.inj_on_of_nodup_map hnd hcnext htnext (hcid.trans htid.symm)
    rw [this] at hclive
    rw [htdead] at hclive
    exact absurd hclive (by decide)

/-! ### Auto-graveyard batch semantics (C5) -/

/-- With the setting enabled, `autoGrave` keeps exactly the non-dead entries
(in order) and prepends the dead ones, stamped, as a block to the graveyard. -/
lemma autoGrave_on (now : Int) (s : TrackerState) (next : List Combatant)
    (h : s.autoGraveyard = true) :
    (autoGrave now s next).combatants = next.filter (fun c => !deadPred c) ∧
    (autoGrave now s next).graveyard =
      ((next.filter deadPred).map fun c => { c with removedAt := some now })
        ++ s.graveyard ∧
    (autoGrave now s next).autoGraveyard = s.autoGraveyard := by
  unfold autoGrave
  rw [h]
  cases hE : (next.filter deadPred).isEmpty with
  | true =>
    have hnil : next.filter deadPred = [] := List.isEmpty_iff.mp hE
    have hall : ∀ a ∈ next, ¬deadPred a = true := List.filter_eq_nil_iff.mp hnil
    simp only [Bool.not_true, Bool.false_eq_true, if_false, if_true, hnil, List.map_nil,
      List.nil_append]
    refine ⟨?_, by trivial, by trivial⟩
    exact (List.filter_eq_self.mpr fun a ha => by
      simp only [Bool.not_eq_true']
      exact Bool.not_eq_true _ ▸ (Bool.eq_false_iff.mpr (hall a ha))).symm
  | false =>
    simp only [Bool.not_true, Bool.false_eq_true, if_false]
    exact ⟨by trivial, by trivial, by trivial⟩

/-- With the setting disabled, `autoGrave` installs the mapped roster and
changes nothing else. -/
lemma autoGrave_off (now : Int) (s : TrackerState) (next : List Combatant)
    (h : s.autoGraveyard = false) :
    autoGrave now s next = { s with combatants := next } := by
  unfold autoGrave
  rw [h]
  rfl

/-- C5: after a damage or set-exact update, with the auto-graveyard setting
enabled, every non-Player HP-tracked combatant at hp ≤ 0 in the mapped roster
is removed in one batch — the survivors keep their relative order, and the
removed ones, each stamped with `removedAt`, are prepended as an
order-preserving block to the head of the graveyard; with the setting
disabled (and hence also when no combatant is dead, where the filter equations
collapse to the identity) roster membership is unchanged. -/
theorem autoGrave_batch :
    ∀ (id : String) (amount : Int) (val : JsNum) (now : Int) (s : TrackerState),
      (s.autoGraveyard = true →
        (applyDamage id amount now s).combatants =
            (damageMap id amount s.combatants).filter (fun c => !deadPred c) ∧
        (applyDamage id amount now s).graveyard =
            (((damageMap id amount s.combatants).filter deadPred).map
              fun c => { c with removedAt := some now }) ++ s.graveyard ∧
        (setExactHp id val now s).combatants =
            (setExactMap id val s.combatants).filter (fun c => !deadPred c) ∧
        (setExactHp id val now s).graveyard =
            (((setExactMap id val s.combatants).filter deadPred).map
              fun c => { c with removedAt := some now }) ++ s.graveyard) ∧
      (s.autoGraveyard = false →
        (applyDamage id amount now s).combatants = damageMap id amount s.combatants ∧
        (applyDamage id amount now s).graveyard = s.graveyard ∧
        (setExactHp id val now s).combatants = setExactMap id val s.combatants ∧
        (setExactHp id val now s).graveyard = s.graveyard) := by
  intro id amount val now s
  constructor
  · intro h
    obtain ⟨hd1, hd2, -⟩ := autoGrave_on now s (damageMap id amount s.combatants) h
    obtain ⟨he1, he2, -⟩ := autoGrave_on now s (setExactMap id val s.combatants) h
    exact ⟨hd1, hd2, he1, he2⟩
  · intro h
    rw [applyDamage, setExactHp, autoGrave_off now s _ h, autoGrave_off now s _ h]
    exact ⟨rfl, rfl, rfl, rfl⟩

/-- Witness for C5: in the one-zombie state with the setting enabled, a damage
tick sweeps the zombie into the graveyard exactly as the batch equations say. -/
theorem autoGrave_batch_witness :
    (applyDamage "z" 1 0 exHealState).combatants =
        (damageMap "z" 1 exHealState.combatants).filter (fun c => !deadPred c) ∧
    (applyDamage "z" 1 0 exHealState).graveyard =
        (((damageMap "z" 1 exHealState.combatants).filter deadPred).map
          fun c => { c with removedAt := some 0 }) ++ exHealState.graveyard ∧
    (setExactHp "z" (JsNum.num 3) 0 exHealState).combatants =
        (setExactMap "z" (JsNum.num 3) exHealState.combatants).filter (fun c => !deadPred c) ∧
    (setExactHp "z" (JsNum.num 3) 0 exHealState).graveyard =
        (((setExactMap "z" (JsNum.num 3) exHealState.combatants).filter deadPred).map
          fun c => { c with removedAt := some 0 }) ++ exHealState.graveyard :=
  (autoGrave_batch "z" 1 (JsNum.num 3) 0 exHealState).1 rfl

/-! ### No-op behaviour of misses (C7) -/

/-- C7 counterexample: damaging an id that is in no collection is *not* an
atomic no-op — the auto-graveyard sweep that `applyDamage` always runs still
moves the already-dead zombie out of the roster. -/
theorem noop_counterexample :
    (applyDamage "nope" 3 0 exHealState).combatants = [] ∧
    exHealState.combatants.map Combatant.id = ["z"] ∧
    (applyDamage "nope" 3 0 exHealState).graveyard.map Combatant.id = ["z"] ∧
    exHealState.graveyard = [] := by decide

/-- A roster whose every entry matching `id` is a PC or HP-untracked is left
unchanged by the three per-target HP mapping steps. -/
lemma hpMaps_id_of_miss (id : String) (amount : Int) (val : JsNum)
    (l : List Combatant) (h : ∀ c ∈ l, c.id = id → c.team = "PC" ∨ c.hp = none) :
    damageMap id amount l = l ∧ healMap id amount l = l ∧ setExactMap id val l = l := by
  refine ⟨?_, ?_, ?_⟩ <;>
  · first
      | unfold damageMap
      | unfold healMap
      | unfold setExactMap
    conv => rhs; rw [show l = List.map (fun a => a) l from (List.map_id' l).symm]
    refine List.map_congr_left fun c hc => ?_
    by_cases h1 : c.id ≠ id
    · simp [h1]
    · have h2 := h c (by simpa using hc) (not_not.mp h1)
      simp [h1, h2]

/-- C7 (amended): heal on a miss (unknown id, Player target, or non-numeric
hp) is an exact no-op; damage and set-exact on a miss leave the per-combatant
mapping unchanged but still run the auto-graveyard sweep, so they are exact
no-ops precisely when the sweep finds nothing (setting disabled, or no
non-Player HP-tracked combatant at hp ≤ 0 anywhere in the roster); and
`moveToGraveyard`/`restoreFromGraveyard` on an id found in neither collection
leave the whole state unchanged. -/
theorem noop_amended :
    ∀ (id : String) (amount : Int) (val : JsNum) (now : Int) (s : TrackerState),
      ((∀ c ∈ s.combatants, c.id = id → c.team = "PC" ∨ c.hp = none) →
        applyHeal id amount s = s ∧
        ((s.autoGraveyard = false ∨ ∀ c ∈ s.combatants, deadPred c = false) →
          applyDamage id amount now s = s ∧ setExactHp id val now s = s)) ∧
      ((∀ c ∈ s.combatants, c.id ≠ id) → (∀ c ∈ s.graveyard, c.id ≠ id) →
        moveToGraveyard id now s = s ∧ restoreFromGraveyard id s = s) := by
  intro id amount val now s
  constructor
  · intro h
    obtain ⟨hD, hH, hE⟩ := hpMaps_id_of_miss id amount val s.combatants h
    refine ⟨?_, ?_⟩
    · rw [applyHeal, hH]
    · intro hsweep
      have hsame : autoGrave now s s.combatants = s := by
        rcases hsweep with hoff | hnone
        · rw [autoGrave_off now s _ hoff]
        · have hnil : s.combatants.filter deadPred = [] :=
            List.filter_eq_nil_iff.mpr fun a ha => by simp [hnone a ha]
          unfold autoGrave
          rw [hnil]
          split_ifs with h1 h2
          · rfl
          · rfl
          · exact absurd rfl h2
      rw [applyDamage, setExactHp, hD, hE]
      exact ⟨hsame, hsame⟩
  · intro hc hg
    constructor
    · unfold moveToGraveyard
      rw [List.find?_eq_none.mpr fun x hx => by simpa using hc x hx]
    · unfold restoreFromGraveyard
      rw [List.find?_eq_none.mpr fun x hx => by simpa using hg x hx]
      rw [List.filter_eq_self.mpr fun a ha => by simpa using hg a ha]

/-- Witness for C7 (amended): every miss operation on the [A,B,C] state with
the setting disabled and the id "ghost" leaves the state untouched. -/
theorem noop_amended_witness :
    applyHeal "ghost" 5 exMvState = exMvState ∧
    applyDamage "ghost" 5 0 exMvState = exMvState ∧
    setExactHp "ghost" (JsNum.num 1) 0 exMvState = exMvState ∧
    moveToGraveyard "ghost" 0 exMvState = exMvState ∧
    restoreFromGraveyard "ghost" exMvState = exMvState := by
  have h := noop_amended "ghost" 5 (JsNum.num 1) 0 exMvState
  have h1 := h.1 (by decide)
  have h2 := h1.2 (Or.inl rfl)
  have h3 := h.2 (by decide) (by decide)
  exact ⟨h1.1, h2.1, h2.2, h3.1, h3.2⟩

/-- Witness for C4 (amended): moving active "a" out of [A,B,C] lands the
pointer on the stored-order head B, and sweeping the dead active zombie does
the analogous thing. -/
theorem activeReassign_amended_witness :
    (moveToGraveyard "a" 0 exMvState).activeId =
      firstVisibleId (exMvState.combatants.filter fun c => c.id ≠ "a") ∧
    (autoGrave 0 exHealState [exZombie]).activeId =
      firstVisibleId ([exZombie].filter fun c => !deadPred c) :=
  ⟨(activeReassign_amended exMvState "a" 0).1 rfl (by decide),
   (activeReassign_amended exHealState "z" 0).2 [exZombie] rfl rfl (by decide) (by decide)⟩

/-! ### One-collection-at-a-time invariant (C8) -/

/-- All combatant ids across the two collections, roster first. -/
def stateIds (s : TrackerState) : List String :=
  (s.combatants ++ s.graveyard).map Combatant.id

/-- The claimed invariant: no id occurs twice across roster and graveyard. -/
def idInv (s : TrackerState) : Prop := (stateIds s).Nodup

lemma hpMaps_map_id (id : String) (amount : Int) (val : JsNum) (l : List Combatant) :
    (damageMap id amount l).map Combatant.id = l.map Combatant.id ∧
    (healMap id amount l).map Combatant.id = l.map Combatant.id ∧
    (setExactMap id val l).map Combatant.id = l.map Combatant.id := by
  refine ⟨?_, ?_, ?_⟩ <;>
  · first
      | unfold damageMap
      | unfold healMap
      | unfold setExactMap
    rw [List.map_map]
    refine List.map_congr_left fun c _ => ?_
    simp only [Function.comp_apply]
    split_ifs <;> rfl

lemma stamp_map_id (now : Int) (l : List Combatant) :
    (l.map fun c => { c with removedAt := some now }).map Combatant.id = l.map Combatant.id := by
  rw [List.map_map]
  exact List.map_congr_left fun c _ => rfl

/-- `autoGrave` only rearranges ids: the multiset of ids across both
collections afterwards is a permutation of the input roster's ids followed by
the old graveyard's. -/
lemma autoGrave_ids_perm (now : Int) (s : TrackerState) (next : List Combatant) :
    ((autoGrave now s next).combatants.map Combatant.id ++
      (autoGrave now s next).graveyard.map Combatant.id).Perm
        (next.map Combatant.id ++ s.graveyard.map Combatant.id) := by
  cases hb : s.autoGraveyard
  · rw [autoGrave_off now s next hb]
  · obtain ⟨h1, h2, -⟩ := autoGrave_on now s next hb
    rw [h1, h2, List.map_append, stamp_map_id]
    have hfil := (List.filter_append_perm deadPred next).map Combatant.id
    rw [List.map_append] at hfil
    refine List.Perm.trans ?_ (hfil.append_right (s.graveyard.map Combatant.id))
    rw [← List.append_assoc]
    exact List.perm_append_comm.append_right _

/-- No entry surviving the removal filter carries the removed id. -/
lemma not_mem_filter_ne_id (id : String) (l : List Combatant) :
    id ∉ (l.filter fun c => c.id ≠ id).map Combatant.id := by
  intro h
  obtain ⟨c, hc, hcid⟩ := List.mem_map.mp h
  have hpred := List.of_mem_filter hc
  simp only [decide_eq_true_eq] at hpred
  exact hpred hcid

/-- Removing the unique entry with identifier `id` and putting `id` back in
front is a permutation of the original id list. -/
lemma filter_ne_id_perm (id : String) (l : List Combatant)
    (hnd : (l.map Combatant.id).Nodup) (t : Combatant) (ht : t ∈ l) (htid : t.id = id) :
    (id :: (l.filter fun c => c.id ≠ id).map Combatant.id).Perm (l.map Combatant.id) := by
  induction l with
  | nil => cases ht
  | cons a rest ih =>
    rw [List.map_cons] at hnd
    rcases List.mem_cons.mp ht with rfl | hrest
    · have hnotin : id ∉ rest.map Combatant.id := htid ▸ (List.nodup_cons.mp hnd).1
      have hfil : rest.filter (fun c => c.id ≠ id) = rest :=
        List.filter_eq_self.mpr fun c hc => decide_eq_true fun he =>
          hnotin (he ▸ List.mem_map_of_mem Combatant.id hc)
      rw [List.filter_cons_of_neg (by simp [htid]), hfil, List.map_cons, htid]
    · have haid : a.id ≠ id := fun he => (List.nodup_cons.mp hnd).1
        (he ▸ htid ▸ List.mem_map_of_mem Combatant.id hrest)
      rw [List.filter_cons_of_pos (by simp [haid]), List.map_cons, List.map_cons]
      refine List.Perm.trans (List.Perm.swap a.id id _) ?_
      exact (ih (List.nodup_cons.mp hnd).2 hrest).cons a.id

lemma stateIds_eq (s : TrackerState) :
    stateIds s = s.combatants.map Combatant.id ++ s.graveyard.map Combatant.id := by
  unfold stateIds; rw [List.map_append]

lemma moveToGraveyard_found (id : String) (now : Int) (s : TrackerState) (t : Combatant)
    (hInv : idInv s) (hfind : s.combatants.find? (fun c => c.id = id) = some t) :
    (stateIds (moveToGraveyard id now s)).Perm (stateIds s) ∧
    (moveToGraveyard id now s).combatants = (s.combatants.filter fun c => c.id ≠ id) ∧
    (moveToGraveyard id now s).graveyard = { t with removedAt := some now } :: s.graveyard := by
  have htmem := List.mem_of_find?_eq_some hfind
  have htid : t.id = id := by simpa using List.find?_some hfind
  have hndL : (s.combatants.map Combatant.id).Nodup := by
    rw [idInv, stateIds_eq] at hInv
    exact hInv.of_append_left
  have hcomb : (moveToGraveyard id now s).combatants =
      (s.combatants.filter fun c => c.id ≠ id) := by
    unfold moveToGraveyard; rw [hfind]
  have hgrave : (moveToGraveyard id now s).graveyard =
      { t with removedAt := some now } :: s.graveyard := by
    unfold moveToGraveyard; rw [hfind]
  refine ⟨?_, hcomb, hgrave⟩
  rw [stateIds_eq, stateIds_eq, hcomb, hgrave, List.map_cons]
  show ((s.combatants.filter fun c => c.id ≠ id).map Combatant.id ++
    t.id :: s.graveyard.map Combatant.id).Perm _
  refine List.Perm.trans List.perm_middle ?_
  rw [htid]
  exact (filter_ne_id_perm id s.combatants hndL t htmem htid).append_right _

lemma restoreFromGraveyard_found (id : String) (s : TrackerState) (t : Combatant)
    (hInv : idInv s) (hfind : s.graveyard.find? (fun c => c.id = id) = some t) :
    (stateIds (restoreFromGraveyard id s)).Perm (stateIds s) ∧
    (restoreFromGraveyard id s).combatants = sortByInit (t :: s.combatants) ∧
    (restoreFromGraveyard id s).graveyard = (s.graveyard.filter fun c => c.id ≠ id) := by
  have htmem := List.mem_of_find?_eq_some hfind
  have htid : t.id = id := by simpa using List.find?_some hfind
  have hndG : (s.graveyard.map Combatant.id).Nodup := by
    rw [idInv, stateIds_eq] at hInv
    exact hInv.of_append_right
  have hcomb : (restoreFromGraveyard id s).combatants = sortByInit (t :: s.combatants) := by
    unfold restoreFromGraveyard; rw [hfind]
  have hgrave : (restoreFromGraveyard id s).graveyard =
      (s.graveyard.filter fun c => c.id ≠ id) := by
    unfold restoreFromGraveyard; rw [hfind]
  refine ⟨?_, hcomb, hgrave⟩
  rw [stateIds_eq, stateIds_eq, hcomb, hgrave]
  have hsort : ((sortByInit (t :: s.combatants)).map Combatant.id).Perm
      (t.id :: s.combatants.map Combatant.id) := by
    have := (List.perm_insertionSort initLe (t :: s.combatants)).map Combatant.id
    simpa using this
  refine List.Perm.trans (hsort.append_right _) ?_
  rw [htid]
  refine List.Perm.trans ?_
    (List.Perm.append_left _ (filter_ne_id_perm id s.graveyard hndG t htmem htid))
  exact List.perm_middle.symm

theorem collections_invariant :
    ∀ (s : TrackerState) (c : Combatant) (id : String) (amount : Int) (val : JsNum) (now : Int),
      (idInv s →
        (c.id ∉ stateIds s → idInv (addCombatant c s)) ∧
        idInv (applyDamage id amount now s) ∧
        idInv (applyHeal id amount s) ∧
        idInv (setExactHp id val now s) ∧
        idInv (moveToGraveyard id now s) ∧
        idInv (restoreFromGraveyard id s) ∧
        idInv (deleteForever id s)) ∧
      (idInv s → id ∈ s.combatants.map Combatant.id →
        (moveToGraveyard id now s).combatants.length = s.combatants.length - 1 ∧
        (moveToGraveyard id now s).graveyard.length = s.graveyard.length + 1 ∧
        id ∉ (moveToGraveyard id now s).combatants.map Combatant.id ∧
        id ∈ (moveToGraveyard id now s).graveyard.map Combatant.id) ∧
      (idInv s → id ∈ s.graveyard.map Combatant.id →
        (restoreFromGraveyard id s).graveyard.length = s.graveyard.length - 1 ∧
        (restoreFromGraveyard id s).combatants.length = s.combatants.length + 1 ∧
        id ∉ (restoreFromGraveyard id s).graveyard.map Combatant.id ∧
        id ∈ (restoreFromGraveyard id s).combatants.map Combatant.id) := by
  intro s c id amount val now
  refine ⟨fun hInv => ⟨?_, ?_, ?_, ?_, ?_, ?_, ?_⟩, fun hInv hmem => ?_, fun hInv hmem => ?_⟩
  · intro hfresh
    have heq : stateIds (addCombatant c s) =
        (s.combatants.map Combatant.id ++ [c.id]) ++ s.graveyard.map Combatant.id := by
      rw [stateIds_eq]
      show (s.combatants ++ [c]).map Combatant.id ++ s.graveyard.map Combatant.id = _
      rw [List.map_append]
      rfl
    have hperm : (stateIds (addCombatant c s)).Perm (c.id :: stateIds s) := by
      rw [heq, stateIds_eq]
      exact List.Perm.trans (List.perm_append_comm.append_right _)
        (List.Perm.of_eq (List.cons_append _ _ _))
    rw [idInv, hperm.nodup_iff]
    exact List.nodup_cons.mpr ⟨hfresh, hInv⟩
  · have hperm := autoGrave_ids_perm now s (damageMap id amount s.combatants)
    rw [(hpMaps_map_id id amount val s.combatants).1] at hperm
    rw [idInv, stateIds_eq] at hInv
    rw [idInv]
    show (stateIds (autoGrave now s (damageMap id amount s.combatants))).Nodup
    rw [stateIds_eq]
    exact (List.Perm.nodup_iff hperm).mpr hInv
  · have heq : stateIds (applyHeal id amount s) = stateIds s := by
      rw [stateIds_eq, stateIds_eq]
      show (healMap id amount s.combatants).map Combatant.id ++
        s.graveyard.map Combatant.id = _
      rw [(hpMaps_map_id id amount val s.combatants).2.1]
    rw [idInv, heq]
    exact hInv
  · have hperm := autoGrave_ids_perm now s (setExactMap id val s.combatants)
    rw [(hpMaps_map_id id amount val s.combatants).2.2] at hperm
    rw [idInv, stateIds_eq] at hInv
    rw [idInv]
    show (stateIds (autoGrave now s (setExactMap id val s.combatants))).Nodup
    rw [stateIds_eq]
    exact (List.Perm.nodup_iff hperm).mpr hInv
  · cases hfind : s.combatants.find? fun d => d.id = id with
    | none =>
      have heq : moveToGraveyard id now s = s := by
        unfold moveToGraveyard; rw [hfind]
      rw [idInv, heq]
      exact hInv
    | some t =>
      rw [idInv]
      exact ((moveToGraveyard_found id now s t hInv hfind).1.nodup_iff).mpr hInv
  · cases hfind : s.graveyard.find? fun d => d.id = id with
    | none =>
      have hgrave : (restoreFromGraveyard id s).graveyard =
          (s.graveyard.filter fun d => d.id ≠ id) := by
        unfold restoreFromGraveyard; rw [hfind]
      have hcomb : (restoreFromGraveyard id s).combatants = s.combatants := by
        unfold restoreFromGraveyard; rw [hfind]
      have hsub : (stateIds (restoreFromGraveyard id s)).Sublist (stateIds s) := by
        rw [stateIds_eq, stateIds_eq, hcomb, hgrave]
        exact List.Sublist.append_left ((List.filter_sublist _).map Combatant.id) _
      exact hsub.nodup hInv
    | some t =>
      rw [idInv]
      exact ((restoreFromGraveyard_found id s t hInv hfind).1.nodup_iff).mpr hInv
  · have hsub : (stateIds (deleteForever id s)).Sublist (stateIds s) := by
      rw [stateIds_eq, stateIds_eq]
      show s.combatants.map Combatant.id ++
        (s.graveyard.filter fun d => d.id ≠ id).map Combatant.id |>.Sublist _
      exact List.Sublist.append_left ((List.filter_sublist _).map Combatant.id) _
    exact hsub.nodup hInv
  · obtain ⟨u, humem, huid⟩ := List.mem_map.mp hmem
    have hsome : (s.combatants.find? fun d => d.id = id).isSome :=
      List.find?_isSome.mpr ⟨u, humem, by simp [huid]⟩
    obtain ⟨t, hfind⟩ := Option.isSome_iff_exists.mp hsome
    obtain ⟨-, hcomb, hgrave⟩ := moveToGraveyard_found id now s t hInv hfind
    have htmem := List.mem_of_find?_eq_some hfind
    have htid : t.id = id := by simpa using List.find?_some hfind
    have hndL : (s.combatants.map Combatant.id).Nodup := by
      rw [idInv, stateIds_eq] at hInv
      exact hInv.of_append_left
    have hlen := (filter_ne_id_perm id s.combatants hndL t htmem htid).length_eq
    rw [List.length_cons, List.length_map, List.length_map] at hlen
    refine ⟨?_, ?_, ?_, ?_⟩
    · rw [hcomb]; omega
    · rw [hgrave]; rfl
    · rw [hcomb]; exact not_mem_filter_ne_id id s.combatants
    · rw [hgrave, List.map_cons]
      show id ∈ t.id :: _
      rw [htid]
      exact List.mem_cons_self _ _
  · obtain ⟨u, humem, huid⟩ := List.mem_map.mp hmem
    have hsome : (s.graveyard.find? fun d => d.id = id).isSome :=
      List.find?_isSome.mpr ⟨u, humem, by simp [huid]⟩
    obtain ⟨t, hfind⟩ := Option.isSome_iff_exists.mp hsome
    obtain ⟨-, hcomb, hgrave⟩ := restoreFromGraveyard_found id s t hInv hfind
    have htmem := List.mem_of_find?_eq_some hfind
    have htid : t.id = id := by simpa using List.find?_some hfind
    have hndG : (s.graveyard.map Combatant.id).Nodup := by
      rw [idInv, stateIds_eq] at hInv
      exact hInv.of_append_right
    have hlen := (filter_ne_id_perm id s.graveyard hndG t htmem htid).length_eq
    rw [List.length_cons, List.length_map, List.length_map] at hlen
    refine ⟨?_, ?_, ?_, ?_⟩
    · rw [hgrave]; omega
    · rw [hcomb,
        show (sortByInit (t :: s.combatants)).length = (t :: s.combatants).length from
          (List.perm_insertionSort initLe _).length_eq]
      rfl
    · rw [hgrave]; exact not_mem_filter_ne_id id s.graveyard
    · rw [hcomb]
      have hmemi : t ∈ sortByInit (t :: s.combatants) :=
        (List.perm_insertionSort initLe _).mem_iff.mpr (List.mem_cons_self _ _)
      exact htid ▸ List.mem_map_of_mem Combatant.id hmemi

/-- Witness for C8: on the [A,B,C] state the invariant survives adding a
fresh-id combatant and moving "a" out, and the move shrinks the roster by one
while growing the graveyard by one. -/
theorem collections_invariant_witness :
    idInv (addCombatant exZombie exMvState) ∧
    idInv (moveToGraveyard "a" 0 exMvState) ∧
    (moveToGraveyard "a" 0 exMvState).combatants.length = exMvState.combatants.length - 1 ∧
    (moveToGraveyard "a" 0 exMvState).graveyard.length = exMvState.graveyard.length + 1 := by
  have h := collections_invariant exMvState exZombie "a" 1 (JsNum.num 2) 0
  have h1 := h.1 (by show (stateIds exMvState).Nodup; decide)
  have h2 := h.2.1 (by show (stateIds exMvState).Nodup; decide) (by decide)
  exact ⟨h1.1 (by decide), h1.2.2.2.2.1, h2.1, h2.2.1⟩

/-! ### Tie (roll-off) assignment (C6, C9) -/

/-- The `while (used.has(roll)) roll = rollD20()` loop of `rollTies`
(App.jsx lines 457–459): starting at stream position `i`, return the first
roll not in `used` together with the next unconsumed position; `fuel` bounds
the number of attempts (the source loop is unbounded). -/
def pickFresh (rolls : Nat → Nat) (used : List Nat) : Nat → Nat → Option (Nat × Nat)
  | _, 0 => none
  | i, fuel + 1 =>
    if rolls i ∈ used then pickFresh rolls used (i + 1) fuel
    else some (rolls i, i + 1)

/-- The inner `for (const c of group)` loop of `rollTies` (App.jsx lines
456–462): assign each member of the group a fresh roll, accumulating the
`used` set, and return the `(id, roll)` pairs in group order. -/
def assignGroup (rolls : Nat → Nat) (fuel : Nat) :
    List Combatant → List Nat → Nat → Option (List (String × Nat) × Nat)
  | [], _, i => some ([], i)
  | c :: rest, used, i =>
    match pickFresh rolls used i fuel with
    | none => none
    | some (r, i2) =>
      match assignGroup rolls fuel rest (r :: used) i2 with
      | none => none
      | some (ps, i3) => some ((c.id, r) :: ps, i3)

/-- First-occurrence deduplication, mirroring the key order of the insertion-
ordered `Map` built by `rollTies` (App.jsx lines 446–451). -/
def dedupGo : List Int → List Int → List Int
  | [], _ => []
  | k :: ks, seen => if k ∈ seen then dedupGo ks seen else k :: dedupGo ks (k :: seen)

/-- The distinct initiative values of the roster in first-occurrence order. -/
def dedupKeys (l : List Int) : List Int := dedupGo l []

/-- The grouping `byInit` of `rollTies`: for each distinct initiative value,
the members holding it, in roster order. -/
def initGroups (prev : List Combatant) : List (List Combatant) :=
  (dedupKeys (prev.map Combatant.init)).map fun key => prev.filter fun c => c.init = key

/-- Association-list lookup, mirroring `updates.get(c.id)` on the JS `Map`
(ids are unique, so first match equals the Map entry). -/
def lookupId (id : String) : List (String × Nat) → Option Nat
  | [] => none
  | (k, v) :: ps => if k = id then some v else lookupId id ps

/-- The outer `for (const [, group] of byInit.entries())` loop (App.jsx lines
453–463): skip singleton groups, assign fresh rolls within each larger group,
and concatenate the update pairs. -/
def rollTiesGo (rolls : Nat → Nat) (fuel : Nat) :
    List (List Combatant) → Nat → Option (List (String × Nat))
  | [], _ => some []
  | g :: gs, i =>
    if g.length ≤ 1 then rollTiesGo rolls fuel gs i
    else
      match assignGroup rolls fuel g [] i with
      | none => none
      | some (ps, i2) =>
        match rollTiesGo rolls fuel gs i2 with
        | none => none
        | some rest => some (ps ++ rest)

/-- The final `prev.map(...)` of `rollTies` (App.jsx line 464): overwrite the
tie of each updated combatant, leave everyone else alone. -/
def updFn (updates : List (String × Nat)) (c : Combatant) : Combatant :=
  match lookupId c.id updates with
  | some r => { c with tie := some (r : Int) }
  | none => c

/-- App.jsx lines 443–466: `rollTies` — `none` when some within-group
resampling loop fails to find a fresh value within `fuel` attempts (the
source would spin forever there). -/
def rollTies (rolls : Nat → Nat) (fuel : Nat) (prev : List Combatant) :
    Option (List Combatant) :=
  match rollTiesGo rolls fuel (initGroups prev) 0 with
  | none => none
  | some updates => some (prev.map (updFn updates))

/-- The canonical fair roll stream cycling through 1..20, a deterministic
stand-in for `Math.floor(Math.random() * 20) + 1` (App.jsx line 441). -/
def cycRolls (n : Nat) : Nat := n % 20 + 1

lemma cycRolls_bounded : ∀ n, 1 ≤ cycRolls n ∧ cycRolls n ≤ 20 := by
  intro n
  unfold cycRolls
  omega

lemma pickFresh_spec (rolls : Nat → Nat) (used : List Nat) :
    ∀ fuel i r i2, pickFresh rolls used i fuel = some (r, i2) →
      r ∉ used ∧ ∃ j, r = rolls j := by
  intro fuel
  induction fuel with
  | zero => intro i r i2 h; cases h
  | succ fuel ih =>
    intro i r i2 h
    rw [pickFresh] at h
    by_cases hm : rolls i ∈ used
    · rw [if_pos hm] at h
      exact ih (i + 1) r i2 h
    · rw [if_neg hm] at h
      injection h with h'
      injection h' with h1 h2
      exact ⟨h1 ▸ hm, ⟨i, h1.symm⟩⟩

lemma lookupId_eq_none (id : String) : ∀ ps : List (String × Nat),
    id ∉ ps.map Prod.fst → lookupId id ps = none := by
  intro ps
  induction ps with
  | nil => intro _; rfl
  | cons p ps ih =>
    intro h
    obtain ⟨k, v⟩ := p
    rw [List.map_cons, List.mem_cons] at h
    push_neg at h
    rw [lookupId, if_neg fun he => h.1 (by rw [he])]
    exact ih h.2

lemma lookupId_mem (id : String) : ∀ ps : List (String × Nat),
    id ∈ ps.map Prod.fst → ∃ v, lookupId id ps = some v ∧ (id, v) ∈ ps := by
  intro ps
  induction ps with
  | nil => intro h; cases h
  | cons p ps ih =>
    intro h
    obtain ⟨k, v⟩ := p
    by_cases he : k = id
    · refine ⟨v, by rw [lookupId, if_pos he], ?_⟩
      subst he
      exact List.mem_cons_self _ _
    · have h' : id ∈ ps.map Prod.fst := by
        rcases List.mem_cons.mp h with hh | hh
        · exact absurd hh.symm he
        · exact hh
      obtain ⟨w, hw1, hw2⟩ := ih h'
      exact ⟨w, by rw [lookupId, if_neg he]; exact hw1, List.mem_cons_of_mem _ hw2⟩

lemma lookupId_append_left (id : String) : ∀ (ps qs : List (String × Nat)),
    id ∈ ps.map Prod.fst → lookupId id (ps ++ qs) = lookupId id ps := by
  intro ps qs
  induction ps with
  | nil => intro h; cases h
  | cons p ps ih =>
    intro h
    obtain ⟨k, v⟩ := p
    rw [List.cons_append, lookupId, lookupId]
    by_cases he : k = id
    · rw [if_pos he, if_pos he]
    · rw [if_neg he, if_neg he]
      refine ih ?_
      rcases List.mem_cons.mp h with hh | hh
      · exact absurd hh.symm he
      · exact hh

lemma lookupId_append_right (id : String) : ∀ (ps qs : List (String × Nat)),
    id ∉ ps.map Prod.fst → lookupId id (ps ++ qs) = lookupId id qs := by
  intro ps qs
  induction ps with
  | nil => intro _; rfl
  | cons p ps ih =>
    intro h
    obtain ⟨k, v⟩ := p
    rw [List.map_cons, List.mem_cons] at h
    push_neg at h
    rw [List.cons_append, lookupId, if_neg fun he => h.1 (by rw [he])]
    exact ih h.2

lemma lookupId_val_mem (id : String) : ∀ (ps : List (String × Nat)) (v : Nat),
    lookupId id ps = some v → v ∈ ps.map Prod.snd := by
  intro ps
  induction ps with
  | nil => intro v h; cases h
  | cons p ps ih =>
    intro v h
    obtain ⟨k, w⟩ := p
    rw [lookupId] at h
    by_cases he : k = id
    · rw [if_pos he] at h
      injection h with h'
      exact h' ▸ List.mem_cons_self _ _
    · rw [if_neg he] at h
      exact List.mem_cons_of_mem _ (ih v h)

lemma lookupId_ne (k1 k2 : String) (hne : k1 ≠ k2) : ∀ ps : List (String × Nat),
    (ps.map Prod.fst).Nodup → (ps.map Prod.snd).Nodup →
    k1 ∈ ps.map Prod.fst → k2 ∈ ps.map Prod.fst →
    lookupId k1 ps ≠ lookupId k2 ps := by
  intro ps
  induction ps with
  | nil => intro _ _ h1; cases h1
  | cons p ps ih =>
    intro hkeys hvals h1 h2
    obtain ⟨k, v⟩ := p
    rw [List.map_cons] at hkeys hvals h1 h2
    by_cases e1 : k = k1
    · have hk2 : k2 ∈ ps.map Prod.fst := by
        rcases List.mem_cons.mp h2 with hh | hh
        · exact absurd (e1.symm.trans hh.symm) hne
        · exact hh
      obtain ⟨w, hw1, hw2⟩ := lookupId_mem k2 ps hk2
      rw [lookupId, if_pos e1, lookupId, if_neg fun he => hne (e1.symm.trans he), hw1]
      intro hcon
      injection hcon with hvw
      exact (List.nodup_cons.mp hvals).1 (hvw ▸ lookupId_val_mem k2 ps w hw1)
    · by_cases e2 : k = k2
      · have hk1 : k1 ∈ ps.map Prod.fst := by
          rcases List.mem_cons.mp h1 with hh | hh
          · exact absurd (hh.trans e2) hne
          · exact hh
        obtain ⟨w, hw1, hw2⟩ := lookupId_mem k1 ps hk1
        rw [lookupId, if_neg e1, lookupId, if_pos e2, hw1]
        intro hcon
        injection hcon with hvw
        exact (List.nodup_cons.mp hvals).1 (hvw ▸ lookupId_val_mem k1 ps w hw1)
      · rw [lookupId, if_neg e1, lookupId, if_neg e2]
        refine ih (List.nodup_cons.mp hkeys).2 (List.nodup_cons.mp hvals).2 ?_ ?_
        · rcases List.mem_cons.mp h1 with hh | hh
          · exact absurd hh.symm e1
          · exact hh
        · rcases List.mem_cons.mp h2 with hh | hh
          · exact absurd hh.symm e2
          · exact hh

lemma assignGroup_spec (rolls : Nat → Nat) (fuel : Nat) :
    ∀ (g : List Combatant) (used : List Nat) (i : Nat) (ps : List (String × Nat)) (i2 : Nat),
      assignGroup rolls fuel g used i = some (ps, i2) →
      ps.map Prod.fst = g.map Combatant.id ∧
      (∀ p ∈ ps, p.2 ∉ used ∧ ∃ j, p.2 = rolls j) ∧
      (ps.map Prod.snd).Nodup := by
  intro g
  induction g with
  | nil =>
    intro used i ps i2 h
    rw [assignGroup] at h
    injection h with h'
    injection h' with h1 h2
    subst h1
    exact ⟨rfl, fun p hp => absurd hp (List.not_mem_nil p), List.nodup_nil⟩
  | cons c rest ih =>
    intro used i ps i2 h
    rw [assignGroup] at h
    split at h
    · cases h
    · rename_i r i3 hpf
      split at h
      · cases h
      · rename_i qs i4 har
        injection h with h'
        injection h' with h1 h2
        subst h1
        obtain ⟨hfr, hjr⟩ := pickFresh_spec rolls used fuel i r i3 hpf
        obtain ⟨ihk, ihv, ihnd⟩ := ih (r :: used) i3 qs i4 har
        refine ⟨?_, ?_, ?_⟩
        · rw [List.map_cons, List.map_cons, ihk]
        · intro p hp
          rcases List.mem_cons.mp hp with rfl | hp'
          · exact ⟨hfr, hjr⟩
          · obtain ⟨hnu, hj⟩ := ihv p hp'
            exact ⟨fun hm => hnu (List.mem_cons_of_mem _ hm), hj⟩
        · rw [List.map_cons]
          refine List.nodup_cons.mpr ⟨?_, ihnd⟩
          intro hrm
          obtain ⟨q, hq, hq2⟩ := List.mem_map.mp hrm
          exact (ihv q hq).1 (by rw [hq2]; exact List.mem_cons_self _ _)

lemma rollTiesGo_spec (rolls : Nat → Nat) (fuel : Nat)
    (hb : ∀ n, 1 ≤ rolls n ∧ rolls n ≤ 20) :
    ∀ (gs : List (List Combatant)) (i : Nat) (updates : List (String × Nat)),
      rollTiesGo rolls fuel gs i = some updates →
      (∀ p ∈ updates, 1 ≤ p.2 ∧ p.2 ≤ 20) ∧
      (∀ id, id ∈ updates.map Prod.fst ↔
        ∃ g, g ∈ gs ∧ 1 < g.length ∧ id ∈ g.map Combatant.id) ∧
      ((gs.flatten.map Combatant.id).Nodup →
        ∀ g ∈ gs, 1 < g.length → ∀ c1 ∈ g, ∀ c2 ∈ g, c1.id ≠ c2.id →
          lookupId c1.id updates ≠ lookupId c2.id updates) := by
  intro gs
  induction gs with
  | nil =>
    intro i updates h
    rw [rollTiesGo] at h
    injection h with h1
    subst h1
    refine ⟨fun p hp => absurd hp (List.not_mem_nil p), ?_, ?_⟩
    · intro id
      constructor
      · intro hm; cases hm
      · rintro ⟨g, hg, -⟩; cases hg
    · intro _ g hg; cases hg
  | cons g gs ih =>
    intro i updates h
    rw [rollTiesGo] at h
    by_cases hlen : g.length ≤ 1
    · rw [if_pos hlen] at h
      obtain ⟨ih1, ih2, ih3⟩ := ih i updates h
      refine ⟨ih1, ?_, ?_⟩
      · intro id
        rw [ih2 id]
        constructor
        · rintro ⟨g', hg', hb', hm'⟩
          exact ⟨g', List.mem_cons_of_mem _ hg', hb', hm'⟩
        · rintro ⟨g', hg', hb', hm'⟩
          rcases List.mem_cons.mp hg' with rfl | h'
          · omega
          · exact ⟨g', h', hb', hm'⟩
      · intro hnd g' hg' hbig c1 h1 c2 h2 hne
        have hnd' : (gs.flatten.map Combatant.id).Nodup := by
          rw [List.flatten_cons, List.map_append] at hnd
          exact hnd.of_append_right
        rcases List.mem_cons.mp hg' with rfl | h'
        · omega
        · exact ih3 hnd' g' h' hbig c1 h1 c2 h2 hne
    · rw [if_neg hlen] at h
      split at h
      · cases h
      · rename_i ps i2 has
        split at h
        · cases h
        · rename_i rest hgo
          injection h with h1
          subst h1
          obtain ⟨hkeys, hvals, hndv⟩ := assignGroup_spec rolls fuel g [] i ps i2 has
          obtain ⟨ih1, ih2, ih3⟩ := ih i2 rest hgo
          have hbound : ∀ p ∈ ps, 1 ≤ p.2 ∧ p.2 ≤ 20 := by
            intro p hp
            obtain ⟨-, j, hj⟩ := hvals p hp
            exact hj ▸ hb j
          refine ⟨?_, ?_, ?_⟩
          · intro p hp
            rcases List.mem_append.mp hp with hp' | hp'
            · exact hbound p hp'
            · exact ih1 p hp'
          · intro id
            rw [List.map_append, List.mem_append, hkeys, ih2 id]
            constructor
            · rintro (hm | ⟨g', hg', hb', hm'⟩)
              · exact ⟨g, List.mem_cons_self _ _, by omega, hm⟩
              · exact ⟨g', List.mem_cons_of_mem _ hg', hb', hm'⟩
            · rintro ⟨g', hg', hb', hm'⟩
              rcases List.mem_cons.mp hg' with rfl | h'
              · exact Or.inl hm'
              · exact Or.inr ⟨g', h', hb', hm'⟩
          · intro hnd g' hg' hbig c1 h1 c2 h2 hne
            rw [List.flatten_cons, List.map_append] at hnd
            have hndg : (g.map Combatant.id).Nodup := hnd.of_append_left
            have hnd' : (gs.flatten.map Combatant.id).Nodup := hnd.of_append_right
            have hdisj : List.Disjoint (g.map Combatant.id)
                (gs.flatten.map Combatant.id) :=
              ((List.nodup_append).mp hnd).2.2
            rcases List.mem_cons.mp hg' with rfl | h'
            · have hm1 : c1.id ∈ ps.map Prod.fst := by
                rw [hkeys]
                exact List.mem_map_of_mem Combatant.id h1
              have hm2 : c2.id ∈ ps.map Prod.fst := by
                rw [hkeys]
                exact List.mem_map_of_mem Combatant.id h2
              rw [lookupId_append_left _ ps rest hm1, lookupId_append_left _ ps rest hm2]
              refine lookupId_ne c1.id c2.id hne ps ?_ hndv hm1 hm2
              rw [hkeys]
              exact hndg
            · have hflat1 : c1.id ∈ gs.flatten.map Combatant.id :=
                List.mem_map_of_mem Combatant.id (List.mem_flatten.mpr ⟨g', h', h1⟩)
              have hflat2 : c2.id ∈ gs.flatten.map Combatant.id :=
                List.mem_map_of_mem Combatant.id (List.mem_flatten.mpr ⟨g', h', h2⟩)
              have hm1 : c1.id ∉ ps.map Prod.fst := by
                rw [hkeys]
                intro hmem
                exact hdisj hmem hflat1
              have hm2 : c2.id ∉ ps.map Prod.fst := by
                rw [hkeys]
                intro hmem
                exact hdisj hmem hflat2
              rw [lookupId_append_right _ ps rest hm1, lookupId_append_right _ ps rest hm2]
              exact ih3 hnd' g' h' hbig c1 h1 c2 h2 hne

lemma dedupGo_mem : ∀ (l seen : List Int) (a : Int),
    a ∈ dedupGo l seen ↔ a ∈ l ∧ a ∉ seen := by
  intro l
  induction l with
  | nil => intro seen a; rw [dedupGo]; simp
  | cons k ks ih =>
    intro seen a
    rw [dedupGo]
    by_cases hk : k ∈ seen
    · rw [if_pos hk, ih]
      constructor
      · rintro ⟨h1, h2⟩
        exact ⟨List.mem_cons_of_mem _ h1, h2⟩
      · rintro ⟨h1, h2⟩
        rcases List.mem_cons.mp h1 with rfl | h1'
        · exact absurd hk h2
        · exact ⟨h1', h2⟩
    · rw [if_neg hk, List.mem_cons, ih]
      constructor
      · rintro (rfl | ⟨h1, h2⟩)
        · exact ⟨List.mem_cons_self _ _, hk⟩
        · rw [List.mem_cons] at h2
          push_neg at h2
          exact ⟨List.mem_cons_of_mem _ h1, h2.2⟩
      · rintro ⟨h1, h2⟩
        rcases List.mem_cons.mp h1 with rfl | h1'
        · exact Or.inl rfl
        · by_cases hak : a = k
          · exact Or.inl hak
          · refine Or.inr ⟨h1', ?_⟩
            rw [List.mem_cons]
            push_neg
            exact ⟨hak, h2⟩

lemma dedupGo_nodup : ∀ (l seen : List Int), (dedupGo l seen).Nodup := by
  intro l
  induction l with
  | nil => intro seen; rw [dedupGo]; exact List.nodup_nil
  | cons k ks ih =>
    intro seen
    rw [dedupGo]
    by_cases hk : k ∈ seen
    · rw [if_pos hk]
      exact ih seen
    · rw [if_neg hk]
      refine List.nodup_cons.mpr ⟨?_, ih (k :: seen)⟩
      intro hmem
      exact ((dedupGo_mem ks (k :: seen) k).mp hmem).2 (List.mem_cons_self _ _)

lemma initGroups_mem_self (prev : List Combatant) (c : Combatant) (hc : c ∈ prev) :
    (prev.filter fun d => d.init = c.init) ∈ initGroups prev := by
  unfold initGroups dedupKeys
  refine List.mem_map.mpr ⟨c.init, ?_, rfl⟩
  rw [dedupGo_mem]
  exact ⟨List.mem_map_of_mem Combatant.init hc, List.not_mem_nil _⟩

lemma initGroups_flatten_nodup (prev : List Combatant)
    (hnd : (prev.map Combatant.id).Nodup) :
    ((initGroups prev).flatten.map Combatant.id).Nodup := by
  rw [List.map_flatten, List.nodup_flatten]
  constructor
  · intro l hl
    obtain ⟨g, hg, rfl⟩ := List.mem_map.mp hl
    obtain ⟨key, hkey, rfl⟩ := List.mem_map.mp hg
    exact ((List.filter_sublist prev).map Combatant.id).nodup hnd
  · unfold initGroups
    rw [List.map_map, List.pairwise_map]
    have hknd : (dedupKeys (prev.map Combatant.init)).Nodup := dedupGo_nodup _ _
    refine List.Pairwise.imp_of_mem ?_ hknd
    intro k1 k2 hk1 hk2 hne x hx1 hx2
    obtain ⟨c1, hc1, hc1x⟩ := List.mem_map.mp hx1
    obtain ⟨c2, hc2, hc2x⟩ := List.mem_map.mp hx2
    have hm1 := List.mem_filter.mp hc1
    have hm2 := List.mem_filter.mp hc2
    have he : c1 = c2 :=
      List.inj_on_of_nodup_map hnd hm1.1 hm2.1 (hc1x.trans hc2x.symm)
    have hi1 : c1.init = k1 := by simpa using hm1.2
    have hi2 : c2.init = k2 := by simpa using hm2.2
    exact hne (hi1 ▸ he ▸ hi2)

lemma updFn_fields (u : List (String × Nat)) (c : Combatant) :
    (updFn u c).id = c.id ∧ (updFn u c).name = c.name ∧ (updFn u c).team = c.team ∧
    (updFn u c).hp = c.hp ∧ (updFn u c).maxHp = c.maxHp ∧ (updFn u c).init = c.init ∧
    (updFn u c).hidden = c.hidden ∧ (updFn u c).notes = c.notes ∧
    (updFn u c).down = c.down ∧ (updFn u c).createdAt = c.createdAt ∧
    (updFn u c).removedAt = c.removedAt := by
  unfold updFn
  cases lookupId c.id u <;>
    exact ⟨rfl, rfl, rfl, rfl, rfl, rfl, rfl, rfl, rfl, rfl, rfl⟩

lemma one_lt_length_of_mem_ne {α : Type} {l : List α} {a b : α}
    (ha : a ∈ l) (hb : b ∈ l) (hne : a ≠ b) : 1 < l.length := by
  cases l with
  | nil => cases ha
  | cons x xs =>
    cases xs with
    | nil =>
      rw [List.mem_singleton] at ha hb
      exact absurd (ha.trans hb.symm) hne
    | cons y ys =>
      simp only [List.length_cons]
      omega

/-- C6: a successful `rollTies` run (unique ids, bounded roll stream) keeps
the roster pointwise identical except for ties; every member of an
initiative group of size > 1 gets a tie in [1,20], two same-initiative
members never share one, and members of singleton groups keep their prior
tie value. -/
theorem rollTies_spec :
    ∀ (rolls : Nat → Nat) (fuel : Nat) (prev next : List Combatant),
      (∀ n, 1 ≤ rolls n ∧ rolls n ≤ 20) →
      (prev.map Combatant.id).Nodup →
      rollTies rolls fuel prev = some next →
      next.length = prev.length ∧
      (∀ (k : Nat) (c c' : Combatant), prev[k]? = some c → next[k]? = some c' →
        (c'.id = c.id ∧ c'.name = c.name ∧ c'.team = c.team ∧ c'.hp = c.hp ∧
         c'.maxHp = c.maxHp ∧ c'.init = c.init ∧ c'.hidden = c.hidden ∧
         c'.notes = c.notes ∧ c'.down = c.down ∧ c'.createdAt = c.createdAt ∧
         c'.removedAt = c.removedAt) ∧
        ((prev.filter fun d => d.init = c.init).length ≤ 1 → c'.tie = c.tie) ∧
        (1 < (prev.filter fun d => d.init = c.init).length →
          ∃ r : Nat, c'.tie = some (r : Int) ∧ 1 ≤ r ∧ r ≤ 20)) ∧
      (∀ (j k : Nat) (cj ck c'j c'k : Combatant), j ≠ k →
        prev[j]? = some cj → prev[k]? = some ck → cj.init = ck.init →
        next[j]? = some c'j → next[k]? = some c'k → c'j.tie ≠ c'k.tie) := by
  intro rolls fuel prev next hb hnd h
  rw [rollTies] at h
  split at h
  · cases h
  · rename_i updates hgo
    injection h with h1
    subst h1
    obtain ⟨hbound, hmemiff, hdistinct⟩ :=
      rollTiesGo_spec rolls fuel hb (initGroups prev) 0 updates hgo
    have hmem_of : ∀ {k : Nat} {c : Combatant}, prev[k]? = some c → c ∈ prev := by
      intro k c hk
      obtain ⟨hkl, hke⟩ := List.getElem?_eq_some.mp hk
      exact hke ▸ List.getElem_mem hkl
    have hlook_small : ∀ c ∈ prev, (prev.filter fun d => d.init = c.init).length ≤ 1 →
        lookupId c.id updates = none := by
      intro c hc hsm
      apply lookupId_eq_none
      intro hmem
      obtain ⟨g, hg, hbig, hidm⟩ := (hmemiff c.id).mp hmem
      unfold initGroups at hg
      obtain ⟨key, hkey, rfl⟩ := List.mem_map.mp hg
      obtain ⟨e, he, heid⟩ := List.mem_map.mp hidm
      have hec : e = c := List.inj_on_of_nodup_map hnd (List.mem_of_mem_filter he) hc heid
      have hkeyc : c.init = key := by
        have h2 := (List.mem_filter.mp he).2
        rw [hec] at h2
        simpa using h2
      rw [← hkeyc] at hbig
      omega
    have hlook_big : ∀ c ∈ prev, 1 < (prev.filter fun d => d.init = c.init).length →
        ∃ r, lookupId c.id updates = some r ∧ 1 ≤ r ∧ r ≤ 20 := by
      intro c hc hbig
      have hmem : c.id ∈ updates.map Prod.fst := by
        rw [hmemiff c.id]
        exact ⟨prev.filter fun d => d.init = c.init, initGroups_mem_self prev c hc, hbig,
          List.mem_map_of_mem Combatant.id (List.mem_filter.mpr ⟨hc, by simp⟩)⟩
      obtain ⟨v, hv1, hv2⟩ := lookupId_mem c.id updates hmem
      have hvb := hbound (c.id, v) hv2
      exact ⟨v, hv1, hvb.1, hvb.2⟩
    refine ⟨List.length_map _ _, ?_, ?_⟩
    · intro k c c' hk hk'
      have hc' : c' = updFn updates c := by
        rw [List.getElem?_map, hk] at hk'
        injection hk' with h2
        exact h2.symm
      subst hc'
      refine ⟨updFn_fields updates c, ?_, ?_⟩
      · intro hsm
        have hnone := hlook_small c (hmem_of hk) hsm
        unfold updFn
        rw [hnone]
      · intro hbig
        obtain ⟨r, hr, hr1, hr2⟩ := hlook_big c (hmem_of hk) hbig
        refine ⟨r, ?_, hr1, hr2⟩
        unfold updFn
        rw [hr]
    · intro j k cj ck c'j c'k hjk hj hk hinit hj' hk'
      have hcj' : c'j = updFn updates cj := by
        rw [List.getElem?_map, hj] at hj'
        injection hj' with h2
        exact h2.symm
      have hck' : c'k = updFn updates ck := by
        rw [List.getElem?_map, hk] at hk'
        injection hk' with h2
        exact h2.symm
      subst hcj' hck'
      have hne : cj.id ≠ ck.id := by
        intro he
        apply hjk
        obtain ⟨hjl, -⟩ := List.getElem?_eq_some.mp hj
        have hjl2 : j < (prev.map Combatant.id).length := by
          rw [List.length_map]
          exact hjl
        refine List.getElem?_inj hjl2 hnd ?_
        rw [List.getElem?_map, List.getElem?_map, hj, hk]
        simp [he]
      have hcjm := hmem_of hj
      have hckm := hmem_of hk
      have hgj : cj ∈ prev.filter fun d => d.init = cj.init :=
        List.mem_filter.mpr ⟨hcjm, by simp⟩
      have hgk : ck ∈ prev.filter fun d => d.init = cj.init :=
        List.mem_filter.mpr ⟨hckm, by simp [hinit.symm]⟩
      have hcne : cj ≠ ck := fun he => hne (by rw [he])
      have hbig : 1 < (prev.filter fun d => d.init = cj.init).length :=
        one_lt_length_of_mem_ne hgj hgk hcne
      have hlk := hdistinct (initGroups_flatten_nodup prev hnd)
        (prev.filter fun d => d.init = cj.init) (initGroups_mem_self prev cj hcjm)
        hbig cj hgj ck hgk hne
      obtain ⟨r1, hr1, -, -⟩ := hlook_big cj hcjm hbig
      have hgeq : (prev.filter fun d => d.init = ck.init) =
          (prev.filter fun d => d.init = cj.init) := by
        rw [hinit]
      have hbigk : 1 < (prev.filter fun d => d.init = ck.init).length := by
        rw [hgeq]
        exact hbig
      obtain ⟨r2, hr2, -, -⟩ := hlook_big ck hckm hbigk
      have t1 : (updFn updates cj).tie = some (r1 : Int) := by
        unfold updFn
        rw [hr1]
      have t2 : (updFn updates ck).tie = some (r2 : Int) := by
        unfold updFn
        rw [hr2]
      rw [t1, t2]
      have hr12 : r1 ≠ r2 := by
        intro hreq
        exact hlk (by rw [hr1, hr2, hreq])
      intro he2
      injection he2 with he3
      exact hr12 (by exact_mod_cast he3)

lemma bounded_nodup_length_le (used : List Nat) (hnd : used.Nodup)
    (hbd : ∀ v ∈ used, 1 ≤ v ∧ v ≤ 20) : used.length ≤ 20 := by
  have hsub : used.toFinset ⊆ Finset.Icc 1 20 := by
    intro v hv
    rw [List.mem_toFinset] at hv
    rw [Finset.mem_Icc]
    exact hbd v hv
  have hcard := Finset.card_le_card hsub
  rw [List.toFinset_card_of_nodup hnd, Nat.card_Icc] at hcard
  omega

lemma assignGroup_le (rolls : Nat → Nat) (fuel : Nat)
    (hb : ∀ n, 1 ≤ rolls n ∧ rolls n ≤ 20) :
    ∀ (g : List Combatant) (used : List Nat) (i : Nat) (ps : List (String × Nat)) (i2 : Nat),
      used.Nodup → (∀ v ∈ used, 1 ≤ v ∧ v ≤ 20) →
      assignGroup rolls fuel g used i = some (ps, i2) →
      g.length + used.length ≤ 20 := by
  intro g
  induction g with
  | nil =>
    intro used i ps i2 hnd hbd _
    simpa using bounded_nodup_length_le used hnd hbd
  | cons c rest ih =>
    intro used i ps i2 hnd hbd h
    rw [assignGroup] at h
    split at h
    · cases h
    · rename_i r i3 hpf
      split at h
      · cases h
      · rename_i qs i4 har
        obtain ⟨hfr, j, hj⟩ := pickFresh_spec rolls used fuel i r i3 hpf
        have hrb : 1 ≤ r ∧ r ≤ 20 := hj ▸ hb j
        have hrec := ih (r :: used) i3 qs i4 (List.nodup_cons.mpr ⟨hfr, hnd⟩)
          (fun v hv => by
            rcases List.mem_cons.mp hv with rfl | hv'
            · exact hrb
            · exact hbd v hv') har
        simp only [List.length_cons] at hrec ⊢
        omega

lemma rollTiesGo_group_le (rolls : Nat → Nat) (fuel : Nat)
    (hb : ∀ n, 1 ≤ rolls n ∧ rolls n ≤ 20) :
    ∀ (gs : List (List Combatant)) (i : Nat) (updates : List (String × Nat)),
      rollTiesGo rolls fuel gs i = some updates →
      ∀ g ∈ gs, 1 < g.length → g.length ≤ 20 := by
  intro gs
  induction gs with
  | nil => intro i updates _ g hg; cases hg
  | cons g gs ih =>
    intro i updates h g' hg' hbig
    rw [rollTiesGo] at h
    by_cases hlen : g.length ≤ 1
    · rw [if_pos hlen] at h
      rcases List.mem_cons.mp hg' with rfl | h'
      · omega
      · exact ih i updates h g' h' hbig
    · rw [if_neg hlen] at h
      split at h
      · cases h
      · rename_i ps i2 has
        split at h
        · cases h
        · rename_i rest hgo
          rcases List.mem_cons.mp hg' with rfl | h'
          · have := assignGroup_le rolls fuel hb g' [] i ps i2 List.nodup_nil
              (by intro v hv; cases hv) has
            simpa using this
          · exact ih i2 rest hgo g' h' hbig

lemma pickFresh_of_exists (rolls : Nat → Nat) (used : List Nat) :
    ∀ (fuel i : Nat), (∃ k, k < fuel ∧ rolls (i + k) ∉ used) →
      ∃ r i2, pickFresh rolls used i fuel = some (r, i2) := by
  intro fuel
  induction fuel with
  | zero =>
    rintro i ⟨k, hk, -⟩
    omega
  | succ fuel ih =>
    rintro i ⟨k, hk, hk2⟩
    rw [pickFresh]
    by_cases hm : rolls i ∈ used
    · rw [if_pos hm]
      have hk0 : k ≠ 0 := by
        rintro rfl
        rw [Nat.add_zero] at hk2
        exact hk2 hm
      refine ih (i + 1) ⟨k - 1, by omega, ?_⟩
      have harith : i + 1 + (k - 1) = i + k := by omega
      rw [harith]
      exact hk2
    · rw [if_neg hm]
      exact ⟨rolls i, i + 1, rfl⟩

lemma cyc_pickFresh (used : List Nat) (hnd : used.Nodup)
    (_hbd : ∀ v ∈ used, 1 ≤ v ∧ v ≤ 20) (hlen : used.length ≤ 19) :
    ∀ i, ∃ r i2, pickFresh cycRolls used i 20 = some (r, i2) := by
  intro i
  have hfree : ∃ v ∈ Finset.Icc 1 20, v ∉ used.toFinset := by
    by_contra hcon
    push_neg at hcon
    have hsub2 : Finset.Icc 1 20 ⊆ used.toFinset := fun v hv => hcon v hv
    have hcard := Finset.card_le_card hsub2
    rw [Nat.card_Icc, List.toFinset_card_of_nodup hnd] at hcard
    omega
  obtain ⟨v, hvI, hvn⟩ := hfree
  rw [Finset.mem_Icc] at hvI
  refine pickFresh_of_exists cycRolls used 20 i ⟨(v - 1 + 20 - i % 20) % 20, ?_, ?_⟩
  · exact Nat.mod_lt _ (by omega)
  · have hcv : cycRolls (i + (v - 1 + 20 - i % 20) % 20) = v := by
      unfold cycRolls
      omega
    rw [hcv]
    exact fun hm => hvn (List.mem_toFinset.mpr hm)

lemma assignGroup_cyc :
    ∀ (g : List Combatant) (used : List Nat) (i : Nat),
      g.length + used.length ≤ 20 → used.Nodup → (∀ v ∈ used, 1 ≤ v ∧ v ≤ 20) →
      ∃ ps i2, assignGroup cycRolls 20 g used i = some (ps, i2) := by
  intro g
  induction g with
  | nil => intro used i _ _ _; exact ⟨[], i, rfl⟩
  | cons c rest ih =>
    intro used i hle hnd hbd
    have hul : used.length ≤ 19 := by
      simp only [List.length_cons] at hle
      omega
    obtain ⟨r, i2, hpf⟩ := cyc_pickFresh used hnd hbd hul i
    obtain ⟨hfr, j, hj⟩ := pickFresh_spec cycRolls used 20 i r i2 hpf
    have hrb : 1 ≤ r ∧ r ≤ 20 := hj ▸ cycRolls_bounded j
    obtain ⟨ps, i3, har⟩ := ih (r :: used) i2
      (by simp only [List.length_cons] at hle ⊢; omega)
      (List.nodup_cons.mpr ⟨hfr, hnd⟩)
      (fun v hv => by
        rcases List.mem_cons.mp hv with rfl | hv'
        · exact hrb
        · exact hbd v hv')
    refine ⟨(c.id, r) :: ps, i3, ?_⟩
    have hstep : assignGroup cycRolls 20 (c :: rest) used i =
        match assignGroup cycRolls 20 rest (r :: used) i2 with
        | none => none
        | some (ps, i3) => some ((c.id, r) :: ps, i3) := by
      rw [assignGroup, hpf]
    rw [hstep, har]

lemma rollTiesGo_cyc :
    ∀ (gs : List (List Combatant)) (i : Nat),
      (∀ g ∈ gs, 1 < g.length → g.length ≤ 20) →
      ∃ updates, rollTiesGo cycRolls 20 gs i = some updates := by
  intro gs
  induction gs with
  | nil => intro i _; exact ⟨[], rfl⟩
  | cons g gs ih =>
    intro i hbnd
    by_cases hlen : g.length ≤ 1
    · obtain ⟨updates, hu⟩ := ih i (fun g' hg' => hbnd g' (List.mem_cons_of_mem _ hg'))
      exact ⟨updates, by rw [rollTiesGo, if_pos hlen, hu]⟩
    · have hle : g.length + ([] : List Nat).length ≤ 20 := by
        simpa using hbnd g (List.mem_cons_self _ _) (by omega)
      obtain ⟨ps, i2, har⟩ := assignGroup_cyc g [] i hle List.nodup_nil
        (by intro v hv; cases hv)
      obtain ⟨rest, hrest⟩ := ih i2 (fun g' hg' => hbnd g' (List.mem_cons_of_mem _ hg'))
      refine ⟨ps ++ rest, ?_⟩
      have hstep : rollTiesGo cycRolls 20 (g :: gs) i =
          match rollTiesGo cycRolls 20 gs i2 with
          | none => none
          | some rest => some (ps ++ rest) := by
        rw [rollTiesGo, if_neg hlen, har]
      rw [hstep, hrest]

/-- C9: `rollTies` terminates exactly under the precondition that every
equal-initiative group has at most 20 members: with the fair cyclic roll
stream, fuel 20 per pick always succeeds when the groups fit in [1,20], while
a roster containing 21 or more combatants of one initiative makes the
resampling loop diverge for every bounded roll stream and every fuel bound. -/
theorem rollTies_termination :
    ∀ prev : List Combatant,
      ((∀ i0 : Int, (prev.filter fun c => c.init = i0).length ≤ 20) →
        ∃ next, rollTies cycRolls 20 prev = some next) ∧
      (∀ rolls : Nat → Nat, (∀ n, 1 ≤ rolls n ∧ rolls n ≤ 20) →
        (∃ i0 : Int, 21 ≤ (prev.filter fun c => c.init = i0).length) →
        ∀ fuel, rollTies rolls fuel prev = none) := by
  intro prev
  constructor
  · intro hcap
    have hgs : ∀ g ∈ initGroups prev, 1 < g.length → g.length ≤ 20 := by
      intro g hg _
      unfold initGroups at hg
      obtain ⟨key, -, rfl⟩ := List.mem_map.mp hg
      exact hcap key
    obtain ⟨updates, hu⟩ := rollTiesGo_cyc (initGroups prev) 0 hgs
    exact ⟨prev.map (updFn updates), by rw [rollTies, hu]⟩
  · intro rolls hb hex fuel
    obtain ⟨i0, h21⟩ := hex
    cases hrt : rollTies rolls fuel prev with
    | none => rfl
    | some next =>
      exfalso
      rw [rollTies] at hrt
      split at hrt
      · cases hrt
      · rename_i updates hgo
        have hpos : 0 < (prev.filter fun c => c.init = i0).length := by omega
        obtain ⟨c, hc⟩ := List.exists_mem_of_length_pos hpos
        have hcp := List.mem_of_mem_filter hc
        have hci : c.init = i0 := by simpa using (List.mem_filter.mp hc).2
        have hgmem := initGroups_mem_self prev c hcp
        have hle := rollTiesGo_group_le rolls fuel hb (initGroups prev) 0 updates hgo
          (prev.filter fun d => d.init = c.init) hgmem (by rw [hci]; omega)
        rw [hci] at hle
        omega

/-- Two same-initiative enemies for the roll-off witnesses. -/
def exTieA : Combatant :=
  { id := "ta", name := "TieA", team := "Enemy", hp := some (JsNum.num 5),
    maxHp := some (JsNum.num 5), init := 12, tie := none, hidden := false, notes := "",
    down := false, createdAt := 0, removedAt := none }

/-- The second member of the tied pair. -/
def exTieB : Combatant := { exTieA with id := "tb", name := "TieB" }

/-- Witness for C6: on the tied pair, the cyclic stream assigns ties 1 and 2,
and the theorem yields their distinctness. -/
theorem rollTies_spec_witness :
    rollTies cycRolls 20 [exTieA, exTieB] =
      some [{ exTieA with tie := some 1 }, { exTieB with tie := some 2 }] ∧
    ({ exTieA with tie := some 1 } : Combatant).tie ≠
      ({ exTieB with tie := some 2 } : Combatant).tie := by
  refine ⟨by decide, ?_⟩
  have h := rollTies_spec cycRolls 20 [exTieA, exTieB]
    [{ exTieA with tie := some 1 }, { exTieB with tie := some 2 }]
    cycRolls_bounded (by decide) (by decide)
  exact h.2.2 0 1 exTieA exTieB _ _ (by decide) rfl rfl rfl rfl rfl

/-- Twenty-one enemies sharing initiative 7: one more than d20 can separate. -/
def bigRoster : List Combatant :=
  (List.range 21).map fun k =>
    { id := toString k, name := toString k, team := "Enemy", hp := some (JsNum.num 5),
      maxHp := some (JsNum.num 5), init := 7, tie := none, hidden := false, notes := "",
      down := false, createdAt := 0, removedAt := none }

/-- Witness for C9: the tied pair terminates under the fair stream, while the
21-strong group diverges (here at fuel 5). -/
theorem rollTies_termination_witness :
    (rollTies cycRolls 20 [exTieA, exTieB]).isSome = true ∧
    rollTies cycRolls 5 bigRoster = none := by
  constructor
  · obtain ⟨next, hn⟩ := (rollTies_termination [exTieA, exTieB]).1
      (fun i0 => le_trans (List.length_filter_le _ _) (by decide))
    rw [hn]
    rfl
  · exact (rollTies_termination bigRoster).2 cycRolls cycRolls_bounded ⟨7, by decide⟩ 5

/-! ### NaN through setExactHp (C10) -/

/-- C10: `setExactHp` does not validate its input — when the numeric
conversion of the raw value is `NaN` (e.g. `Number("abc")`), the targeted
non-Player HP-tracked combatant ends up with `hp = NaN` (no integer in
[-9999, maxHp]) and `down = false`, because `clamp` propagates `NaN` through
`Math.min`/`Math.max` and `NaN <= 0` is false. -/
theorem setExact_nan :
    ∀ (s : TrackerState) (c : Combatant) (now h : Int),
      c ∈ s.combatants → c.team ≠ "PC" → c.hp = some (JsNum.num h) →
      ∃ c', c' ∈ (setExactHp c.id JsNum.nan now s).combatants ∧
        c'.id = c.id ∧ c'.hp = some JsNum.nan ∧ c'.down = false ∧
        ∀ n : Int, c'.hp ≠ some (JsNum.num n) := by
  intro s c now h hc hteam hhp
  have hfn : (if c.id ≠ c.id then c else if c.team = "PC" ∨ c.hp = none then c
      else setExactPure c JsNum.nan) = setExactPure c JsNum.nan := by
    rw [if_neg (by simp), if_neg (by simp [hteam, hhp])]
  have hnan : (setExactPure c JsNum.nan).hp = some JsNum.nan := by
    show some (clamp JsNum.nan (JsNum.num (-9999)) (coNum c.maxHp)) = some JsNum.nan
    unfold clamp
    cases coNum c.maxHp <;> rfl
  have hdown : (setExactPure c JsNum.nan).down = false := by
    show jsLe0 (clamp JsNum.nan (JsNum.num (-9999)) (coNum c.maxHp)) = false
    unfold clamp
    cases coNum c.maxHp <;> rfl
  have hmem : setExactPure c JsNum.nan ∈ setExactMap c.id JsNum.nan s.combatants := by
    unfold setExactMap
    exact List.mem_map.mpr ⟨c, hc, hfn⟩
  have hdead : deadPred (setExactPure c JsNum.nan) = false := by
    unfold deadPred
    rw [hnan]
    simp [coNum, jsLe0]
  refine ⟨setExactPure c JsNum.nan, ?_, rfl, hnan, hdown, ?_⟩
  · unfold setExactHp autoGrave
    split_ifs with h1 h2
    · exact hmem
    · exact hmem
    · exact List.mem_filter.mpr ⟨hmem, by rw [hdead]; rfl⟩
  · intro n hcon
    rw [hnan] at hcon
    simp at hcon

/-- Witness for C10: setting the zombie's HP to `NaN` leaves it in the roster
with `hp = NaN` and `down = false`. -/
theorem setExact_nan_witness :
    (setExactHp "z" JsNum.nan 0 exHealState).combatants.map Combatant.hp =
      [some JsNum.nan] ∧
    (setExactHp "z" JsNum.nan 0 exHealState).combatants.map Combatant.down = [false] := by
  obtain ⟨c', hmem, hid, hhp, hdown, -⟩ :=
    setExact_nan exHealState exZombie 0 (-5) (by decide) (by decide) rfl
  constructor <;> decide
